import Mathlib

/-!
# Verification of better-color-picker's core: color math, geometry, drag mapping

Shallow embedding of the repository's core logic:
* `PickerPositioning.calculatePosition` (positioning of the floating panel),
* `PickerInteractions._updateSL`, `_updateHue`, `_handleRGBInput` (drag/typing
  mapping),
* `RecentColorsManager` (bounded MRU list),
* the `ColorConversions` module (hex/RGB/HSV/HSL conversions).  The
  implementation file `src/utils/ColorConversions.mjs` is absent from the
  snapshot (only its test-suite is present), so those functions are modelled
  from the specification's formulas over exact rational arithmetic.

JavaScript numbers are modelled as rationals (`ℚ`); `Math.round` is
round-half-up (`⌊q + 1/2⌋`); `Math.max`/`Math.min` are `max`/`min`; a
JavaScript string argument that may be `null`/`undefined` is an
`Option String` with `none` for the missing value.
-/

namespace ColorPicker

/-- An RGB triple as produced by the conversion functions; channels are the
integers produced by JavaScript `Math.round`. -/
structure RGB where
  r : ℤ
  g : ℤ
  b : ℤ
  deriving DecidableEq, Repr

/-- An HSV triple: hue in degrees, saturation/value in percent. -/
structure HSV where
  h : ℚ
  s : ℚ
  v : ℚ
  deriving DecidableEq, Repr

/-- An HSL triple: hue in degrees, saturation/lightness in percent. -/
structure HSL where
  h : ℚ
  s : ℚ
  l : ℚ
  deriving DecidableEq, Repr

/-- JavaScript `Math.round`: round half toward positive infinity. -/
def jsRound (q : ℚ) : ℤ := ⌊q + 1/2⌋

end ColorPicker

namespace ColorConversions

open ColorPicker

/-- Value of a hexadecimal digit character (both cases), `none` otherwise;
the arms are grouped by value. -/
def hexDigitVal : Char → Option ℕ
  | '0' => some 0
  | 'a' => some 10
  | 'A' => some 10
  | '1' => some 1
  | 'b' => some 11
  | 'B' => some 11
  | '2' => some 2
  | 'c' => some 12
  | 'C' => some 12
  | '3' => some 3
  | 'd' => some 13
  | 'D' => some 13
  | '4' => some 4
  | 'e' => some 14
  | 'E' => some 14
  | '5' => some 5
  | 'f' => some 15
  | 'F' => some 15
  | '6' => some 6
  | '7' => some 7
  | '8' => some 8
  | '9' => some 9
  | _ => none

/-- Lowercase hexadecimal digit character for a value in `[0, 15]`. -/
def hexDigitChar : ℕ → Char
  | 0 => '0'
  | 1 => '1'
  | 2 => '2'
  | 3 => '3'
  | 4 => '4'
  | 5 => '5'
  | 6 => '6'
  | 7 => '7'
  | 8 => '8'
  | 9 => '9'
  | 10 => 'a'
  | 11 => 'b'
  | 12 => 'c'
  | 13 => 'd'
  | 14 => 'e'
  | _ => 'f'

/-- JavaScript `Number.prototype.toString(16)` for a non-negative integer:
lowercase hexadecimal digits, most significant first, `"0"` for zero. -/
def natToHexChars (n : ℕ) : List Char :=
  if _h : n < 16 then [hexDigitChar n]
  else natToHexChars (n / 16) ++ [hexDigitChar (n % 16)]
  decreasing_by exact Nat.div_lt_self (by omega) (by omega)

/-- JavaScript `padStart(2, "0")` on a character list. -/
def padStart2 (cs : List Char) : List Char :=
  if cs.length < 2 then List.replicate (2 - cs.length) '0' ++ cs else cs

/-- Strip one leading `'#'`, as the conversion functions accept an optional
`'#'` prefix. -/
def stripHash : List Char → List Char
  | '#' :: rest => rest
  | cs => cs

/-- Parse two hexadecimal digit characters into a byte value. -/
def parseHexPair (c₁ c₂ : Char) : Option ℕ :=
  match hexDigitVal c₁, hexDigitVal c₂ with
  | some a, some b => some (16 * a + b)
  | _, _ => none

/-- Core of `hexToRGB` on the stripped character list: exactly six
hexadecimal digits parse into three channels; everything else falls back to
black. -/
def hexToRGBChars : List Char → RGB
  | [c₁, c₂, c₃, c₄, c₅, c₆] =>
    match parseHexPair c₁ c₂, parseHexPair c₃ c₄, parseHexPair c₅ c₆ with
    | some r, some g, some b => ⟨r, g, b⟩
    | _, _, _ => ⟨0, 0, 0⟩
  | _ => ⟨0, 0, 0⟩

/-- Modelled from the spec: `hexToRGB` of the missing
`src/utils/ColorConversions.mjs` — accepts an optional leading `'#'`,
exactly 6 hex digits (case-insensitive) after stripping; any other length,
missing value (`null`/`undefined`, modelled as `none`), or non-hex-digit
character returns `{r:0,g:0,b:0}`. -/
def hexToRGB : Option String → RGB
  | none => ⟨0, 0, 0⟩
  | some s => hexToRGBChars (stripHash s.data)

/-- The raw 60°-sector hue of the max/min/delta algorithm, before the
negative-result normalization: piecewise by dominant channel. -/
def hueRawOf (r' g' b' mx d : ℚ) : ℚ :=
  if d = 0 then 0
  else if mx = r' then 60 * ((g' - b') / d)
  else if mx = g' then 60 * ((b' - r') / d + 2)
  else 60 * ((r' - g') / d + 4)

/-- Negative hue results are normalized by adding 360. -/
def normalizeNegHue (h : ℚ) : ℚ := if h < 0 then h + 360 else h

/-- Modelled from the spec: `rgbToHSV` of the missing
`src/utils/ColorConversions.mjs` — standard max/min/delta algorithm;
`s = 0, v = 0` when max = 0; `s = 0` when delta = 0; hue by 60°-sector
piecewise formula with negative results normalized by adding 360. -/
def rgbToHSV (r g b : ℚ) : HSV :=
  let r' := r / 255
  let g' := g / 255
  let b' := b / 255
  let mx := max r' (max g' b')
  let mn := min r' (min g' b')
  let d := mx - mn
  let h := normalizeNegHue (hueRawOf r' g' b' mx d)
  let s := if mx = 0 then 0 else d / mx * 100
  ⟨h, s, mx * 100⟩

/-- Modelled from the spec: `rgbToHSL` of the missing
`src/utils/ColorConversions.mjs` — lightness `(max+min)/2`; saturation 0
when achromatic, else `delta/(1−|2l−1|)`; hue identical formula family to
HSV. -/
def rgbToHSL (r g b : ℚ) : HSL :=
  let r' := r / 255
  let g' := g / 255
  let b' := b / 255
  let mx := max r' (max g' b')
  let mn := min r' (min g' b')
  let d := mx - mn
  let h := normalizeNegHue (hueRawOf r' g' b' mx d)
  let l := (mx + mn) / 2
  let s := if d = 0 then 0 else d / (1 - |2 * l - 1|) * 100
  ⟨h, s, l * 100⟩

/-- Normalize a hue in degrees into `[0, 360)` (360 wraps to 0). -/
def wrapHue (h : ℚ) : ℚ := h - 360 * ⌊h / 360⌋

/-- The six 60° sectors of the hue-to-RGB decomposition: the unscaled
`(r, g, b)` contributions before the match value `m` is added. -/
def sectorRGB (hp c x : ℚ) : ℚ × ℚ × ℚ :=
  if hp < 1 then (c, x, 0)
  else if hp < 2 then (x, c, 0)
  else if hp < 3 then (0, c, x)
  else if hp < 4 then (0, x, c)
  else if hp < 5 then (x, 0, c)
  else (c, 0, x)

/-- Modelled from the spec: `hsvToRGB` of the missing
`src/utils/ColorConversions.mjs` — standard sector decomposition with
chroma `c = v·s`, secondary `x`, match `m = v − c` over six 60° sectors;
`h = 360` treated as `h = 0`; output channels rounded to nearest integer. -/
def hsvToRGB (h s v : ℚ) : RGB :=
  let hh := wrapHue h
  let s' := s / 100
  let v' := v / 100
  let c := v' * s'
  let hp := hh / 60
  let x := c * (1 - |hp - 2 * ⌊hp / 2⌋ - 1|)
  let m := v' - c
  let rgb := sectorRGB hp c x
  ⟨jsRound ((rgb.1 + m) * 255), jsRound ((rgb.2.1 + m) * 255),
    jsRound ((rgb.2.2 + m) * 255)⟩

/-- Modelled from the spec: `hslToRGB` of the missing
`src/utils/ColorConversions.mjs` — standard chroma/lightness decomposition
with `c = (1−|2l−1|)·s`, match `m = l − c/2`; `h = 360` wraps to 0; output
channels rounded to nearest integer. -/
def hslToRGB (h s l : ℚ) : RGB :=
  let hh := wrapHue h
  let s' := s / 100
  let l' := l / 100
  let c := (1 - |2 * l' - 1|) * s'
  let hp := hh / 60
  let x := c * (1 - |hp - 2 * ⌊hp / 2⌋ - 1|)
  let m := l' - c / 2
  let rgb := sectorRGB hp c x
  ⟨jsRound ((rgb.1 + m) * 255), jsRound ((rgb.2.1 + m) * 255),
    jsRound ((rgb.2.2 + m) * 255)⟩

/-- Format three integer channels as the lowercase, zero-padded,
7-character `#rrggbb` string (`toString(16).padStart(2,"0")` per channel,
joined after `'#'`). -/
def rgbToHexString (r g b : ℤ) : String :=
  ⟨'#' :: (padStart2 (natToHexChars r.toNat) ++ padStart2 (natToHexChars g.toNat)
      ++ padStart2 (natToHexChars b.toNat))⟩

/-- Modelled from the spec: `hexToHSV` of the missing
`src/utils/ColorConversions.mjs` — composition through RGB. -/
def hexToHSV (s : Option String) : HSV :=
  let rgb := hexToRGB s
  rgbToHSV rgb.r rgb.g rgb.b

/-- Modelled from the spec: `hsvToHex` of the missing
`src/utils/ColorConversions.mjs` — composition through RGB, always emitting
lowercase, zero-padded, 7-character `#rrggbb`. -/
def hsvToHex (hsv : HSV) : String :=
  let rgb := hsvToRGB hsv.h hsv.s hsv.v
  rgbToHexString rgb.r rgb.g rgb.b

/-- Modelled from the spec: `hexToHSL` of the missing
`src/utils/ColorConversions.mjs` — composition through RGB. -/
def hexToHSL (s : Option String) : HSL :=
  let rgb := hexToRGB s
  rgbToHSL rgb.r rgb.g rgb.b

/-- Modelled from the spec: `hslToHex` of the missing
`src/utils/ColorConversions.mjs` — composition through RGB, same formatting
contract as `hsvToHex`. -/
def hslToHex (hsl : HSL) : String :=
  let rgb := hslToRGB hsl.h hsl.s hsl.l
  rgbToHexString rgb.r rgb.g rgb.b

/-- ASCII lowercasing of one character. -/
def asciiToLower (c : Char) : Char :=
  if 'A' ≤ c ∧ c ≤ 'Z' then Char.ofNat (c.toNat + 32) else c

/-- The lowercase `'#'`-prefixed canonical form of a hex color string. -/
def canonicalHex (s : String) : String :=
  ⟨'#' :: (stripHash s.data).map asciiToLower⟩

/-- A valid 6-digit hex string: after stripping an optional `'#'`, exactly
six case-insensitive hexadecimal digits. -/
def validHex (s : String) : Prop :=
  (stripHash s.data).length = 6 ∧ ∀ c ∈ stripHash s.data, (hexDigitVal c).isSome

instance (s : String) : Decidable (validHex s) := by
  unfold validHex
  infer_instance

end ColorConversions

namespace PickerPositioning

/-- A DOM bounding rectangle as returned by `getBoundingClientRect`:
viewport-relative coordinates. -/
structure Rect where
  top : ℚ
  bottom : ℚ
  left : ℚ
  right : ℚ
  deriving DecidableEq, Repr

/-- The computed page-relative panel position. -/
structure Position where
  top : ℚ
  left : ℚ
  deriving DecidableEq, Repr

/-- `PickerPositioning.calculatePosition` from the source: default below the
anchor with a 5px gap, flip above on bottom overflow, clamp on right
overflow, then floor both coordinates at 0. -/
def calculatePosition (rect : Rect) (pickerHeight pickerWidth : ℚ)
    (scrollX scrollY innerWidth innerHeight : ℚ) : Position :=
  let top0 := rect.bottom + scrollY + 5
  let left0 := rect.left + scrollX
  let top1 :=
    if rect.bottom + pickerHeight > innerHeight then
      rect.top + scrollY - pickerHeight - 5
    else top0
  let left1 :=
    if rect.left + pickerWidth > innerWidth then
      innerWidth - pickerWidth - 10 + scrollX
    else left0
  ⟨max 0 top1, max 0 left1⟩

/-- The specification's four-step reference definition of the positioning
algorithm (section 4.2 of the spec), written independently of
`calculatePosition` for the refinement comparison. -/
def specReferencePosition (anchor : Rect) (panelHeight panelWidth : ℚ)
    (scrollX scrollY viewportWidth viewportHeight : ℚ) : Position :=
  let defaultTop := anchor.bottom + scrollY + 5
  let defaultLeft := anchor.left + scrollX
  let flippedTop :=
    if anchor.bottom + panelHeight > viewportHeight then
      anchor.top + scrollY - panelHeight - 5
    else defaultTop
  let clampedLeft :=
    if anchor.left + panelWidth > viewportWidth then
      viewportWidth - panelWidth - 10 + scrollX
    else defaultLeft
  ⟨max 0 flippedTop, max 0 clampedLeft⟩

end PickerPositioning

namespace PickerInteractions

open ColorPicker ColorConversions

/-- `PickerInteractions._updateSL` from the source, as the pure map from the
current HSV and the pointer/rect geometry to the new HSV: relative pointer
coordinates are clamped into the surface rect, then
`s = x/width·100`, `v = 100 − y/height·100`; hue is untouched. -/
def updateSL (hsv : HSV) (clientX clientY rectLeft rectTop rectWidth rectHeight : ℚ) :
    HSV :=
  let x := clientX - rectLeft
  let y := clientY - rectTop
  let x' := max 0 (min x rectWidth)
  let y' := max 0 (min y rectHeight)
  let s := x' / rectWidth * 100
  let v := 100 - y' / rectHeight * 100
  ⟨hsv.h, s, v⟩

/-- `PickerInteractions._updateHue` from the source, as the pure map from
the current HSV and the pointer/rect geometry to the new HSV: the relative
pointer x is clamped into the track, then `h = x/width·360`; saturation and
value are untouched. -/
def updateHue (hsv : HSV) (clientX rectLeft rectWidth : ℚ) : HSV :=
  let x := clientX - rectLeft
  let x' := max 0 (min x rectWidth)
  let h := x' / rectWidth * 360
  ⟨h, hsv.s, hsv.v⟩

/-- Decimal digit value of a character, `none` otherwise. -/
def decDigitVal (c : Char) : Option ℕ :=
  if '0' ≤ c ∧ c ≤ '9' then some (c.toNat - 48) else none

/-- Parse a leading run of digits (per `digit?`) in the given base; `none`
when the run is empty. -/
def parseDigits (digit? : Char → Option ℕ) (base : ℕ) (cs : List Char) : Option ℕ :=
  let ds := cs.takeWhile fun c => (digit? c).isSome
  if ds.isEmpty then none
  else some (ds.foldl (fun acc c => acc * base + (digit? c).getD 0) 0)

/-- JavaScript `parseInt` with no radix, as used by `_handleRGBInput`: skip
leading whitespace, accept an optional sign, then either a `0x`/`0X`-prefixed
hexadecimal digit run or a decimal digit run, stopping at the first
non-digit; `none` models `NaN`. -/
def jsParseInt (s : String) : Option ℤ :=
  let cs := s.data.dropWhile fun c => c = ' ' ∨ c = '\t' ∨ c = '\n' ∨ c = '\r'
  let signed : ℤ × List Char :=
    match cs with
    | '-' :: rest => (-1, rest)
    | '+' :: rest => (1, rest)
    | _ => (1, cs)
  match signed.2 with
  | '0' :: 'x' :: rest => (parseDigits hexDigitVal 16 rest).map fun n => signed.1 * n
  | '0' :: 'X' :: rest => (parseDigits hexDigitVal 16 rest).map fun n => signed.1 * n
  | rest => (parseDigits decDigitVal 10 rest).map fun n => signed.1 * n

/-- `parseInt(value) || 0` from `_handleRGBInput`: an unparsable channel
(`NaN`) becomes 0. -/
def parseChannel (s : String) : ℤ := (jsParseInt s).getD 0

/-- The clamp `Math.max(0, Math.min(255, ·))` from `_handleRGBInput`. -/
def clampChannel (n : ℤ) : ℤ := max 0 (min 255 n)

/-- `PickerInteractions._handleRGBInput` from the source, as the pure map
from the three RGB text-field contents to the `#rrggbb` string it builds:
each channel is parsed with `parseInt`, defaulted to 0, clamped into
`[0,255]`, rendered as `toString(16).padStart(2,"0")` and joined after
`'#'`. -/
def handleRGBInputHex (sR sG sB : String) : String :=
  let r := clampChannel (parseChannel sR)
  let g := clampChannel (parseChannel sG)
  let b := clampChannel (parseChannel sB)
  rgbToHexString r g b

/-- The HSV state `_handleRGBInput` re-derives from the hex string it
built. -/
def handleRGBInputHSV (sR sG sB : String) : HSV :=
  hexToHSV (some (handleRGBInputHex sR sG sB))

end PickerInteractions

namespace RecentColorsManager

/-- The default capacity of the recent-colors store
(`constructor(maxColors = 14)`). -/
def defaultMaxColors : ℕ := 14

/-- JavaScript `String.prototype.toLowerCase` on the ASCII strings the
recent-colors store holds: lowercase each character. -/
def jsToLowerCase (s : String) : String :=
  ⟨s.data.map ColorConversions.asciiToLower⟩

/-- `RecentColorsManager.add` from the source, as the pure map on the
`colors` list: drop case-insensitive duplicates of the new color, prepend
its literal form, then truncate to `maxColors` entries. -/
def add (maxColors : ℕ) (colors : List String) (color : String) : List String :=
  let filtered := colors.filter fun c => jsToLowerCase c ≠ jsToLowerCase color
  let added := color :: filtered
  if added.length > maxColors then added.take maxColors else added

/-- A heap of JavaScript arrays of strings, for the aliasing behavior of
`getColors`: `next` is the next fresh reference, `store` maps a reference to
the array contents. -/
structure Heap where
  next : ℕ
  store : ℕ → List String

/-- Allocate a fresh array holding `v`. -/
def alloc (h : Heap) (v : List String) : ℕ × Heap :=
  (h.next, ⟨h.next + 1, fun i => if i = h.next then v else h.store i⟩)

/-- Overwrite the contents of the array behind reference `r` (an arbitrary
caller-side mutation of an array it holds). -/
def writeCell (h : Heap) (r : ℕ) (v : List String) : Heap :=
  ⟨h.next, fun i => if i = r then v else h.store i⟩

/-- `RecentColorsManager.getColors` from the source:
`return [...this.colors]` — allocate a fresh array holding a copy of the
internal `colors` array (behind reference `ref`) and return its reference. -/
def getColors (ref : ℕ) (h : Heap) : ℕ × Heap :=
  alloc h (h.store ref)

end RecentColorsManager

section Theorems

open ColorPicker ColorConversions

theorem jsRound_intCast (n : ℤ) : jsRound (n : ℚ) = n := by
  unfold jsRound
  rw [Int.floor_eq_iff]
  refine ⟨by linarith, by linarith⟩

theorem jsRound_natCast (n : ℕ) : jsRound (n : ℚ) = n := by
  have := jsRound_intCast (n : ℤ)
  rwa [Int.cast_natCast] at this

theorem jsRound_nonneg {q : ℚ} (h : 0 ≤ q) : 0 ≤ jsRound q := by
  unfold jsRound
  positivity

theorem jsRound_le {q : ℚ} {n : ℕ} (h : q ≤ n) : jsRound q ≤ n := by
  unfold jsRound
  rw [Int.floor_le_iff]
  push_cast
  linarith

theorem hexToRGBChars_length_ne {l : List Char} (h : l.length ≠ 6) :
    hexToRGBChars l = ⟨0, 0, 0⟩ := by
  match l, h with
  | [], _ => rfl
  | [_], _ => rfl
  | [_, _], _ => rfl
  | [_, _, _], _ => rfl
  | [_, _, _, _], _ => rfl
  | [_, _, _, _, _], _ => rfl
  | [_, _, _, _, _, _], h => exact absurd (by simp) h
  | _ :: _ :: _ :: _ :: _ :: _ :: _ :: _, _ => rfl

theorem parseHexPair_none_left {c₁ c₂ : Char} (h : hexDigitVal c₁ = none) :
    parseHexPair c₁ c₂ = none := by
  unfold parseHexPair
  rw [h]

theorem parseHexPair_none_right {c₁ c₂ : Char} (h : hexDigitVal c₂ = none) :
    parseHexPair c₁ c₂ = none := by
  unfold parseHexPair
  rw [h]
  rcases hexDigitVal c₁ with _ | a <;> rfl

theorem hexToRGBChars_bad_char {l : List Char}
    (hc : ∃ c ∈ l, hexDigitVal c = none) : hexToRGBChars l = ⟨0, 0, 0⟩ := by
  by_cases hlen : l.length = 6
  · match l, hlen with
    | [c₁, c₂, c₃, c₄, c₅, c₆], _ =>
      simp only [List.mem_cons, List.not_mem_nil, or_false, exists_eq_or_imp,
        exists_eq_left] at hc
      show (match parseHexPair c₁ c₂, parseHexPair c₃ c₄, parseHexPair c₅ c₆ with
        | some r, some g, some b => RGB.mk r g b
        | _, _, _ => ⟨0, 0, 0⟩) = ⟨0, 0, 0⟩
      rcases hc with h | h | h | h | h | h
      · rw [parseHexPair_none_left h]
      · rw [parseHexPair_none_right h]
      · rw [parseHexPair_none_left h]
        rcases parseHexPair c₁ c₂ with _ | r <;> rfl
      · rw [parseHexPair_none_right h]
        rcases parseHexPair c₁ c₂ with _ | r <;> rfl
      · rw [parseHexPair_none_left h]
        rcases parseHexPair c₁ c₂ with _ | r <;> rcases parseHexPair c₃ c₄ with _ | g <;> rfl
      · rw [parseHexPair_none_right h]
        rcases parseHexPair c₁ c₂ with _ | r <;> rcases parseHexPair c₃ c₄ with _ | g <;> rfl
  · exact hexToRGBChars_length_ne hlen

/-- C2: for every malformed input to `hexToRGB` — a missing value
(`null`/`undefined`, modelled as `none`), or a string whose `'#'`-stripped
form does not have exactly 6 characters (this includes the empty string), or
a string containing a non-hex-digit character — the result is
`{r:0, g:0, b:0}`; the function is total, so it never throws. -/
theorem hexToRGB_malformed (s : Option String)
    (hmal : s = none ∨ ∃ str, s = some str ∧
      ((stripHash str.data).length ≠ 6 ∨
        ∃ c ∈ stripHash str.data, hexDigitVal c = none)) :
    hexToRGB s = ⟨0, 0, 0⟩ := by
  rcases hmal with rfl | ⟨str, rfl, hbad | hbad⟩
  · rfl
  · exact hexToRGBChars_length_ne hbad
  · exact hexToRGBChars_bad_char hbad

theorem hexToRGB_malformed_witness :
    hexToRGB (some "#FF@00!") = ⟨0, 0, 0⟩ :=
  hexToRGB_malformed (some "#FF@00!")
    (Or.inr ⟨"#FF@00!", rfl, Or.inr (by decide)⟩)

theorem wrapHue_360 : wrapHue 360 = 0 := by
  unfold wrapHue
  have h : (360 : ℚ) / 360 = 1 := by norm_num
  rw [h, Int.floor_one]
  norm_num

theorem wrapHue_zero : wrapHue 0 = 0 := by
  unfold wrapHue
  have h : (0 : ℚ) / 360 = 0 := by norm_num
  rw [h, Int.floor_zero]
  norm_num

theorem sectorRGB_bounds {hp c x : ℚ} (hc : 0 ≤ c) (hx0 : 0 ≤ x) (hxc : x ≤ c) :
    (0 ≤ (sectorRGB hp c x).1 ∧ (sectorRGB hp c x).1 ≤ c) ∧
    (0 ≤ (sectorRGB hp c x).2.1 ∧ (sectorRGB hp c x).2.1 ≤ c) ∧
    (0 ≤ (sectorRGB hp c x).2.2 ∧ (sectorRGB hp c x).2.2 ≤ c) := by
  unfold sectorRGB
  split_ifs <;> dsimp only <;>
    exact ⟨⟨by first | assumption | linarith, by first | assumption | linarith⟩,
      ⟨by first | assumption | linarith, by first | assumption | linarith⟩,
      ⟨by first | assumption | linarith, by first | assumption | linarith⟩⟩

theorem jsRound_unit_mul_255 {q : ℚ} (h0 : 0 ≤ q) (h1 : q ≤ 1) :
    0 ≤ jsRound (q * 255) ∧ jsRound (q * 255) ≤ 255 := by
  refine ⟨jsRound_nonneg (by positivity), ?_⟩
  have : jsRound (q * 255) ≤ (255 : ℕ) := jsRound_le (by push_cast; linarith)
  exact_mod_cast this

theorem secondary_factor_bounds (hp : ℚ) :
    0 ≤ 1 - |hp - 2 * ⌊hp / 2⌋ - 1| ∧ 1 - |hp - 2 * ⌊hp / 2⌋ - 1| ≤ 1 := by
  have hfr0 : (0 : ℚ) ≤ hp / 2 - ⌊hp / 2⌋ := by
    have := Int.floor_le (hp / 2)
    linarith
  have hfr1 : hp / 2 - ⌊hp / 2⌋ < 1 := by
    have := Int.lt_floor_add_one (hp / 2)
    linarith
  have habs : |hp - 2 * ⌊hp / 2⌋ - 1| ≤ 1 := by
    rw [abs_le]
    constructor <;> linarith
  have habs0 : 0 ≤ |hp - 2 * ⌊hp / 2⌋ - 1| := abs_nonneg _
  exact ⟨by linarith, by linarith⟩

theorem hsvToRGB_channels_range (h s v : ℚ)
    (hs0 : 0 ≤ s) (hs1 : s ≤ 100) (hv0 : 0 ≤ v) (hv1 : v ≤ 100) :
    (0 ≤ (hsvToRGB h s v).r ∧ (hsvToRGB h s v).r ≤ 255) ∧
    (0 ≤ (hsvToRGB h s v).g ∧ (hsvToRGB h s v).g ≤ 255) ∧
    (0 ≤ (hsvToRGB h s v).b ∧ (hsvToRGB h s v).b ≤ 255) := by
  have hs'0 : 0 ≤ s / 100 := by positivity
  have hs'1 : s / 100 ≤ 1 := by linarith
  have hv'0 : 0 ≤ v / 100 := by positivity
  have hv'1 : v / 100 ≤ 1 := by linarith
  have hc0 : 0 ≤ v / 100 * (s / 100) := by positivity
  have hcv : v / 100 * (s / 100) ≤ v / 100 := mul_le_of_le_one_right hv'0 hs'1
  obtain ⟨hf0, hf1⟩ := secondary_factor_bounds (wrapHue h / 60)
  have hx0 : 0 ≤ v / 100 * (s / 100) * (1 - |wrapHue h / 60 - 2 * ⌊wrapHue h / 60 / 2⌋ - 1|) :=
    mul_nonneg hc0 hf0
  have hxc : v / 100 * (s / 100) * (1 - |wrapHue h / 60 - 2 * ⌊wrapHue h / 60 / 2⌋ - 1|) ≤
      v / 100 * (s / 100) := mul_le_of_le_one_right hc0 hf1
  obtain ⟨⟨hr0, hr1⟩, ⟨hg0, hg1⟩, ⟨hb0, hb1⟩⟩ := @sectorRGB_bounds (wrapHue h / 60) _ _ hc0 hx0 hxc
  unfold hsvToRGB
  dsimp only
  refine ⟨jsRound_unit_mul_255 (by linarith) (by linarith),
    jsRound_unit_mul_255 (by linarith) (by linarith),
    jsRound_unit_mul_255 (by linarith) (by linarith)⟩

theorem hslToRGB_channels_range (h s l : ℚ)
    (hs0 : 0 ≤ s) (hs1 : s ≤ 100) (hl0 : 0 ≤ l) (hl1 : l ≤ 100) :
    (0 ≤ (hslToRGB h s l).r ∧ (hslToRGB h s l).r ≤ 255) ∧
    (0 ≤ (hslToRGB h s l).g ∧ (hslToRGB h s l).g ≤ 255) ∧
    (0 ≤ (hslToRGB h s l).b ∧ (hslToRGB h s l).b ≤ 255) := by
  have hs'0 : 0 ≤ s / 100 := by positivity
  have hs'1 : s / 100 ≤ 1 := by linarith
  have hl'0 : 0 ≤ l / 100 := by positivity
  have hl'1 : l / 100 ≤ 1 := by linarith
  have habs0 : 0 ≤ |2 * (l / 100) - 1| := abs_nonneg _
  have habs1 : |2 * (l / 100) - 1| ≤ 1 := by
    rw [abs_le]; constructor <;> linarith
  have habs2 : 2 * (l / 100) - 1 ≤ |2 * (l / 100) - 1| := le_abs_self _
  have habs3 : -(2 * (l / 100) - 1) ≤ |2 * (l / 100) - 1| := neg_le_abs _
  have hc0 : 0 ≤ (1 - |2 * (l / 100) - 1|) * (s / 100) :=
    mul_nonneg (by linarith) hs'0
  have hcb : (1 - |2 * (l / 100) - 1|) * (s / 100) ≤ 1 - |2 * (l / 100) - 1| :=
    mul_le_of_le_one_right (by linarith) hs'1
  obtain ⟨hf0, hf1⟩ := secondary_factor_bounds (wrapHue h / 60)
  have hx0 : 0 ≤ (1 - |2 * (l / 100) - 1|) * (s / 100) *
      (1 - |wrapHue h / 60 - 2 * ⌊wrapHue h / 60 / 2⌋ - 1|) := mul_nonneg hc0 hf0
  have hxc : (1 - |2 * (l / 100) - 1|) * (s / 100) *
      (1 - |wrapHue h / 60 - 2 * ⌊wrapHue h / 60 / 2⌋ - 1|) ≤
      (1 - |2 * (l / 100) - 1|) * (s / 100) := mul_le_of_le_one_right hc0 hf1
  obtain ⟨⟨hr0, hr1⟩, ⟨hg0, hg1⟩, ⟨hb0, hb1⟩⟩ := @sectorRGB_bounds (wrapHue h / 60) _ _ hc0 hx0 hxc
  unfold hslToRGB
  dsimp only
  refine ⟨jsRound_unit_mul_255 (by linarith) (by linarith),
    jsRound_unit_mul_255 (by linarith) (by linarith),
    jsRound_unit_mul_255 (by linarith) (by linarith)⟩

/-- C7: an input hue of 360 is treated as hue 0 — for all `s,v ∈ [0,100]`,
`hsvToRGB 360 s v = hsvToRGB 0 s v`, and for all `s,l ∈ [0,100]`,
`hslToRGB 360 s l = hslToRGB 0 s l` — and the output channels are integers
in `[0, 255]`. -/
theorem hue360_wraps (s v : ℚ)
    (hs0 : 0 ≤ s) (hs1 : s ≤ 100) (hv0 : 0 ≤ v) (hv1 : v ≤ 100) :
    hsvToRGB 360 s v = hsvToRGB 0 s v ∧
    hslToRGB 360 s v = hslToRGB 0 s v ∧
    ((0 ≤ (hsvToRGB 360 s v).r ∧ (hsvToRGB 360 s v).r ≤ 255) ∧
      (0 ≤ (hsvToRGB 360 s v).g ∧ (hsvToRGB 360 s v).g ≤ 255) ∧
      (0 ≤ (hsvToRGB 360 s v).b ∧ (hsvToRGB 360 s v).b ≤ 255)) ∧
    ((0 ≤ (hslToRGB 360 s v).r ∧ (hslToRGB 360 s v).r ≤ 255) ∧
      (0 ≤ (hslToRGB 360 s v).g ∧ (hslToRGB 360 s v).g ≤ 255) ∧
      (0 ≤ (hslToRGB 360 s v).b ∧ (hslToRGB 360 s v).b ≤ 255)) := by
  refine ⟨?_, ?_, hsvToRGB_channels_range 360 s v hs0 hs1 hv0 hv1,
    hslToRGB_channels_range 360 s v hs0 hs1 hv0 hv1⟩
  · simp only [hsvToRGB, wrapHue_360, wrapHue_zero]
  · simp only [hslToRGB, wrapHue_360, wrapHue_zero]

theorem hue360_wraps_witness :
    hsvToRGB 360 50 50 = hsvToRGB 0 50 50 ∧
    hslToRGB 360 50 50 = hslToRGB 0 50 50 ∧
    ((0 ≤ (hsvToRGB 360 50 50).r ∧ (hsvToRGB 360 50 50).r ≤ 255) ∧
      (0 ≤ (hsvToRGB 360 50 50).g ∧ (hsvToRGB 360 50 50).g ≤ 255) ∧
      (0 ≤ (hsvToRGB 360 50 50).b ∧ (hsvToRGB 360 50 50).b ≤ 255)) ∧
    ((0 ≤ (hslToRGB 360 50 50).r ∧ (hslToRGB 360 50 50).r ≤ 255) ∧
      (0 ≤ (hslToRGB 360 50 50).g ∧ (hslToRGB 360 50 50).g ≤ 255) ∧
      (0 ≤ (hslToRGB 360 50 50).b ∧ (hslToRGB 360 50 50).b ≤ 255)) :=
  hue360_wraps 50 50 (by norm_num) (by norm_num) (by norm_num) (by norm_num)

theorem recentAdd_length_le (n : ℕ) (l : List String) (c : String) :
    (RecentColorsManager.add n l c).length ≤ n := by
  unfold RecentColorsManager.add
  dsimp only
  split_ifs with hgt
  · simp [List.length_take]
  · omega

theorem recentAdd_head (n : ℕ) (hn : 1 ≤ n) (l : List String) (c : String) :
    (RecentColorsManager.add n l c).head? = some c := by
  unfold RecentColorsManager.add
  dsimp only
  split_ifs with hgt
  · obtain ⟨m, rfl⟩ : ∃ m, n = m + 1 := ⟨n - 1, by omega⟩
    rw [List.take_succ_cons]
    rfl
  · rfl

theorem recentAdd_pairwise (n : ℕ) (l : List String) (c : String)
    (hl : l.Pairwise fun a b =>
      RecentColorsManager.jsToLowerCase a ≠ RecentColorsManager.jsToLowerCase b) :
    (RecentColorsManager.add n l c).Pairwise fun a b =>
      RecentColorsManager.jsToLowerCase a ≠ RecentColorsManager.jsToLowerCase b := by
  unfold RecentColorsManager.add
  dsimp only
  have hfil : (l.filter fun x =>
      RecentColorsManager.jsToLowerCase x ≠ RecentColorsManager.jsToLowerCase c).Pairwise
      fun a b =>
        RecentColorsManager.jsToLowerCase a ≠ RecentColorsManager.jsToLowerCase b :=
    hl.filter _
  have hcons : (c :: l.filter fun x =>
      RecentColorsManager.jsToLowerCase x ≠ RecentColorsManager.jsToLowerCase c).Pairwise
      fun a b =>
        RecentColorsManager.jsToLowerCase a ≠ RecentColorsManager.jsToLowerCase b := by
    rw [List.pairwise_cons]
    refine ⟨fun a ha => ?_, hfil⟩
    rw [List.mem_filter] at ha
    have := of_decide_eq_true ha.2
    exact fun heq => this heq.symm
  split_ifs with hgt
  · exact hcons.sublist (List.take_sublist _ _)
  · exact hcons

theorem recentFoldl_pairwise (n : ℕ) (cs : List String) (l : List String)
    (hl : l.Pairwise fun a b =>
      RecentColorsManager.jsToLowerCase a ≠ RecentColorsManager.jsToLowerCase b) :
    (cs.foldl (RecentColorsManager.add n) l).Pairwise fun a b =>
      RecentColorsManager.jsToLowerCase a ≠ RecentColorsManager.jsToLowerCase b := by
  induction cs generalizing l with
  | nil => exact hl
  | cons c cs ih => exact ih _ (recentAdd_pairwise n l c hl)

/-- C6: after any sequence of `add` calls on a recent-colors store with the
default capacity 14, starting from the empty list, the list has at most 14
entries, its front entry is the literal string most recently added, and no
two entries are case-insensitively equal; in particular adding `#FF0000`
then `#ff0000` yields exactly `["#ff0000"]`. -/
theorem recentColors_add_invariants (cs : List String) (c : String) :
    (((cs ++ [c]).foldl
      (RecentColorsManager.add RecentColorsManager.defaultMaxColors) []).length ≤ 14 ∧
    ((cs ++ [c]).foldl
      (RecentColorsManager.add RecentColorsManager.defaultMaxColors) []).head? = some c ∧
    ((cs ++ [c]).foldl
      (RecentColorsManager.add RecentColorsManager.defaultMaxColors) []).Pairwise
      fun a b =>
        RecentColorsManager.jsToLowerCase a ≠ RecentColorsManager.jsToLowerCase b) ∧
    ["#FF0000", "#ff0000"].foldl
      (RecentColorsManager.add RecentColorsManager.defaultMaxColors) [] = ["#ff0000"] := by
  refine ⟨?_, by decide⟩
  rw [List.foldl_append]
  simp only [List.foldl_cons, List.foldl_nil]
  exact ⟨recentAdd_length_le _ _ _,
    recentAdd_head _ (by norm_num [RecentColorsManager.defaultMaxColors]) _ _,
    recentAdd_pairwise _ _ _ (recentFoldl_pairwise _ cs [] List.Pairwise.nil)⟩

/-- C9: `getColors` returns a fresh copy of the internal colors list — the
returned array has the same contents, overwriting it leaves the manager's
internal array unchanged, and a later `getColors` still returns the original
contents. -/
theorem getColors_returns_fresh_copy (ref : ℕ) (h : RecentColorsManager.Heap)
    (href : ref < h.next) (v : List String) :
    ((RecentColorsManager.getColors ref h).2.store
        (RecentColorsManager.getColors ref h).1 = h.store ref) ∧
    ((RecentColorsManager.writeCell (RecentColorsManager.getColors ref h).2
        (RecentColorsManager.getColors ref h).1 v).store ref = h.store ref) ∧
    ((RecentColorsManager.getColors ref
        (RecentColorsManager.writeCell (RecentColorsManager.getColors ref h).2
          (RecentColorsManager.getColors ref h).1 v)).2.store
      (RecentColorsManager.getColors ref
        (RecentColorsManager.writeCell (RecentColorsManager.getColors ref h).2
          (RecentColorsManager.getColors ref h).1 v)).1 = h.store ref) := by
  have hne : ref ≠ h.next := Nat.ne_of_lt href
  unfold RecentColorsManager.getColors RecentColorsManager.alloc
    RecentColorsManager.writeCell
  simp [hne]

theorem getColors_returns_fresh_copy_witness :
    (((RecentColorsManager.getColors 0
        ⟨1, fun i => if i = 0 then ["#abc123"] else []⟩).2.store
      (RecentColorsManager.getColors 0
        ⟨1, fun i => if i = 0 then ["#abc123"] else []⟩).1 =
        (fun i => if i = 0 then ["#abc123"] else []) 0) ∧
    ((RecentColorsManager.writeCell
        (RecentColorsManager.getColors 0
          ⟨1, fun i => if i = 0 then ["#abc123"] else []⟩).2
        (RecentColorsManager.getColors 0
          ⟨1, fun i => if i = 0 then ["#abc123"] else []⟩).1 []).store 0 =
        (fun i => if i = 0 then ["#abc123"] else []) 0) ∧
    ((RecentColorsManager.getColors 0
        (RecentColorsManager.writeCell
          (RecentColorsManager.getColors 0
            ⟨1, fun i => if i = 0 then ["#abc123"] else []⟩).2
          (RecentColorsManager.getColors 0
            ⟨1, fun i => if i = 0 then ["#abc123"] else []⟩).1 [])).2.store
      (RecentColorsManager.getColors 0
        (RecentColorsManager.writeCell
          (RecentColorsManager.getColors 0
            ⟨1, fun i => if i = 0 then ["#abc123"] else []⟩).2
          (RecentColorsManager.getColors 0
            ⟨1, fun i => if i = 0 then ["#abc123"] else []⟩).1 [])).1 =
        (fun i => if i = 0 then ["#abc123"] else []) 0)) :=
  getColors_returns_fresh_copy 0 ⟨1, fun i => if i = 0 then ["#abc123"] else []⟩
    (by norm_num) []

/-- C4: the saturation/lightness drag mapping first clamps the relative
pointer coordinates into `[0,width] × [0,height]`, then sets
`s = x/width·100` and `v = 100 − y/height·100`, leaving the hue unchanged;
on a 200×100 surface, a pointer at relative (100,50) yields `s = 50`,
`v = 50`. -/
theorem updateSL_matches_spec :
    (∀ (hsv : ColorPicker.HSV) (px py rl rt w hgt : ℚ),
      PickerInteractions.updateSL hsv px py rl rt w hgt =
        ⟨hsv.h, max 0 (min (px - rl) w) / w * 100,
          100 - max 0 (min (py - rt) hgt) / hgt * 100⟩) ∧
    PickerInteractions.updateSL ⟨0, 100, 100⟩ 100 50 0 0 200 100 = ⟨0, 50, 50⟩ := by
  refine ⟨fun hsv px py rl rt w hgt => rfl, ?_⟩
  unfold PickerInteractions.updateSL
  norm_num [min_def, max_def]

/-- C5 counterexample: at the right edge of a 200px-wide hue track
(relative pointer x = 200), `_updateHue` stores a hue of exactly 360, which
is not in the half-open interval `[0, 360)`. -/
theorem updateHue_right_edge_counterexample :
    (PickerInteractions.updateHue ⟨0, 100, 100⟩ 200 0 200).h = 360 ∧
    ¬ (PickerInteractions.updateHue ⟨0, 100, 100⟩ 200 0 200).h < 360 := by
  unfold PickerInteractions.updateHue
  norm_num [min_def, max_def]

/-- C5 (amended): for every pointer x-coordinate on a positive-width hue
track, the stored hue `h = clamp(x,0,width)/width·360` lies in the closed
interval `[0, 360]`, and a pointer exactly at the track's right edge stores
a hue of exactly 360 (not a value strictly below 360). -/
theorem updateHue_range (hsv : ColorPicker.HSV) (clientX rectLeft rectWidth : ℚ)
    (hw : 0 < rectWidth) :
    0 ≤ (PickerInteractions.updateHue hsv clientX rectLeft rectWidth).h ∧
    (PickerInteractions.updateHue hsv clientX rectLeft rectWidth).h ≤ 360 ∧
    (clientX - rectLeft = rectWidth →
      (PickerInteractions.updateHue hsv clientX rectLeft rectWidth).h = 360) := by
  unfold PickerInteractions.updateHue
  dsimp only
  have hcl0 : 0 ≤ max 0 (min (clientX - rectLeft) rectWidth) := le_max_left 0 _
  have hclw : max 0 (min (clientX - rectLeft) rectWidth) ≤ rectWidth :=
    max_le hw.le (min_le_right _ _)
  have hdiv1 : max 0 (min (clientX - rectLeft) rectWidth) / rectWidth ≤ 1 :=
    (div_le_one hw).mpr hclw
  have hdiv0 : 0 ≤ max 0 (min (clientX - rectLeft) rectWidth) / rectWidth :=
    div_nonneg hcl0 hw.le
  refine ⟨by nlinarith, by nlinarith, fun hedge => ?_⟩
  rw [hedge, min_self, max_eq_right hw.le, div_self hw.ne']
  norm_num

theorem updateHue_range_witness :
    0 ≤ (PickerInteractions.updateHue ⟨0, 0, 0⟩ 200 0 200).h ∧
    (PickerInteractions.updateHue ⟨0, 0, 0⟩ 200 0 200).h ≤ 360 ∧
    ((200 : ℚ) - 0 = 200 →
      (PickerInteractions.updateHue ⟨0, 0, 0⟩ 200 0 200).h = 360) :=
  updateHue_range ⟨0, 0, 0⟩ 200 0 200 (by norm_num)

theorem wrapHue_eq_self {h : ℚ} (h0 : 0 ≤ h) (h1 : h < 360) : wrapHue h = h := by
  unfold wrapHue
  have hfl : ⌊h / 360⌋ = 0 := by
    rw [Int.floor_eq_zero_iff, Set.mem_Ico]
    constructor
    · positivity
    · rw [div_lt_one (by norm_num)]
      linarith
  rw [hfl]
  norm_num

theorem floorHalf0 {q : ℚ} (h0 : 0 ≤ q) (h1 : q < 2) : ⌊q / 2⌋ = 0 := by
  rw [Int.floor_eq_zero_iff, Set.mem_Ico]
  constructor
  · positivity
  · linarith

theorem floorHalf1 {q : ℚ} (h0 : 2 ≤ q) (h1 : q < 4) : ⌊q / 2⌋ = 1 := by
  rw [Int.floor_eq_iff]
  constructor <;> push_cast <;> linarith

theorem floorHalf2 {q : ℚ} (h0 : 4 ≤ q) (h1 : q < 6) : ⌊q / 2⌋ = 2 := by
  rw [Int.floor_eq_iff]
  constructor <;> push_cast <;> linarith

theorem secfac01 {hp : ℚ} (h0 : 0 ≤ hp) (h1 : hp ≤ 1) :
    1 - |hp - 2 * ⌊hp / 2⌋ - 1| = hp := by
  rw [floorHalf0 h0 (by linarith), abs_of_nonpos (by push_cast; linarith)]
  push_cast
  ring

theorem secfac12 {hp : ℚ} (h0 : 1 ≤ hp) (h1 : hp < 2) :
    1 - |hp - 2 * ⌊hp / 2⌋ - 1| = 2 - hp := by
  rw [floorHalf0 (by linarith) h1, abs_of_nonneg (by push_cast; linarith)]
  push_cast
  ring

theorem secfac23 {hp : ℚ} (h0 : 2 ≤ hp) (h1 : hp ≤ 3) :
    1 - |hp - 2 * ⌊hp / 2⌋ - 1| = hp - 2 := by
  rw [floorHalf1 h0 (by linarith), abs_of_nonpos (by push_cast; linarith)]
  push_cast
  ring

theorem secfac34 {hp : ℚ} (h0 : 3 ≤ hp) (h1 : hp < 4) :
    1 - |hp - 2 * ⌊hp / 2⌋ - 1| = 4 - hp := by
  rw [floorHalf1 (by linarith) h1, abs_of_nonneg (by push_cast; linarith)]
  push_cast
  ring

theorem secfac45 {hp : ℚ} (h0 : 4 ≤ hp) (h1 : hp ≤ 5) :
    1 - |hp - 2 * ⌊hp / 2⌋ - 1| = hp - 4 := by
  rw [floorHalf2 h0 (by linarith), abs_of_nonpos (by push_cast; linarith)]
  push_cast
  ring

theorem secfac56 {hp : ℚ} (h0 : 5 ≤ hp) (h1 : hp < 6) :
    1 - |hp - 2 * ⌊hp / 2⌋ - 1| = 6 - hp := by
  rw [floorHalf2 (by linarith) h1, abs_of_nonneg (by push_cast; linarith)]
  push_cast
  ring

theorem sectorRGB0 {hp c x : ℚ} (h1 : hp < 1) : sectorRGB hp c x = (c, x, 0) := by
  unfold sectorRGB
  rw [if_pos h1]

theorem sectorRGB1 {hp c x : ℚ} (h0 : 1 ≤ hp) (h1 : hp < 2) :
    sectorRGB hp c x = (x, c, 0) := by
  unfold sectorRGB
  rw [if_neg (not_lt.mpr h0), if_pos h1]

theorem sectorRGB2 {hp c x : ℚ} (h0 : 2 ≤ hp) (h1 : hp < 3) :
    sectorRGB hp c x = (0, c, x) := by
  unfold sectorRGB
  rw [if_neg (not_lt.mpr (by linarith)), if_neg (not_lt.mpr h0), if_pos h1]

theorem sectorRGB3 {hp c x : ℚ} (h0 : 3 ≤ hp) (h1 : hp < 4) :
    sectorRGB hp c x = (0, x, c) := by
  unfold sectorRGB
  rw [if_neg (not_lt.mpr (by linarith)), if_neg (not_lt.mpr (by linarith)),
    if_neg (not_lt.mpr h0), if_pos h1]

theorem sectorRGB4 {hp c x : ℚ} (h0 : 4 ≤ hp) (h1 : hp < 5) :
    sectorRGB hp c x = (x, 0, c) := by
  unfold sectorRGB
  rw [if_neg (not_lt.mpr (by linarith)), if_neg (not_lt.mpr (by linarith)),
    if_neg (not_lt.mpr (by linarith)), if_neg (not_lt.mpr h0), if_pos h1]

theorem sectorRGB5 {hp c x : ℚ} (h0 : 5 ≤ hp) : sectorRGB hp c x = (c, 0, x) := by
  unfold sectorRGB
  rw [if_neg (not_lt.mpr (by linarith)), if_neg (not_lt.mpr (by linarith)),
    if_neg (not_lt.mpr (by linarith)), if_neg (not_lt.mpr (by linarith)),
    if_neg (not_lt.mpr h0)]

theorem sector_core (ra ga ba mx mn d h hp x : ℚ)
    (hmx : mx = max ra (max ga ba))
    (hmn : mn = min ra (min ga ba))
    (hd : d = mx - mn)
    (hh : h = normalizeNegHue (hueRawOf ra ga ba mx d))
    (hhp : hp = h / 60)
    (hx : x = d * (1 - |hp - 2 * ⌊hp / 2⌋ - 1|)) :
    (0 ≤ h ∧ h < 360) ∧
    (sectorRGB hp d x).1 + mn = ra ∧
    (sectorRGB hp d x).2.1 + mn = ga ∧
    (sectorRGB hp d x).2.2 + mn = ba := by
  have hra_mx : ra ≤ mx := by rw [hmx]; exact le_max_left _ _
  have hga_mx : ga ≤ mx := by
    rw [hmx]; exact le_trans (le_max_left _ _) (le_max_right _ _)
  have hba_mx : ba ≤ mx := by
    rw [hmx]; exact le_trans (le_max_right _ _) (le_max_right _ _)
  have hmn_ra : mn ≤ ra := by rw [hmn]; exact min_le_left _ _
  have hmn_ga : mn ≤ ga := by
    rw [hmn]; exact le_trans (min_le_right _ _) (min_le_left _ _)
  have hmn_ba : mn ≤ ba := by
    rw [hmn]; exact le_trans (min_le_right _ _) (min_le_right _ _)
  by_cases hd0 : d = 0
  · -- achromatic: all three channels equal the min
    have hmxmn : mx = mn := by rw [hd] at hd0; linarith
    have hraeq : ra = mn := le_antisymm (hmxmn ▸ hra_mx) hmn_ra
    have hgaeq : ga = mn := le_antisymm (hmxmn ▸ hga_mx) hmn_ga
    have hbaeq : ba = mn := le_antisymm (hmxmn ▸ hba_mx) hmn_ba
    have hraw : hueRawOf ra ga ba mx d = 0 := by unfold hueRawOf; rw [if_pos hd0]
    have hzero : h = 0 := by
      rw [hh, hraw]; unfold normalizeNegHue; rw [if_neg (lt_irrefl 0)]
    have hpzero : hp = 0 := by rw [hhp, hzero]; norm_num
    have hxzero : x = 0 := by rw [hx, hd0]; ring
    rw [hzero, hpzero]
    refine ⟨⟨le_refl 0, by norm_num⟩, ?_, ?_, ?_⟩ <;>
      rw [sectorRGB0 (by norm_num : (0:ℚ) < 1)] <;> dsimp only
    · rw [hd0, hraeq]; ring
    · rw [hxzero, hgaeq]; ring
    · rw [hbaeq]; ring
  · have hmnmx : mn ≤ mx := le_trans hmn_ra hra_mx
    have hdpos : 0 < d := by
      have hne : mn ≠ mx := by
        intro he
        exact hd0 (by rw [hd, he, sub_self])
      have := lt_of_le_of_ne hmnmx hne
      rw [hd]; linarith
    by_cases hr : mx = ra
    · -- dominant red channel
      have hraw : hueRawOf ra ga ba mx d = 60 * ((ga - ba) / d) := by
        unfold hueRawOf; rw [if_neg hd0, if_pos hr]
      by_cases hgb : ba ≤ ga
      · -- green ≥ blue: hue in [0, 60]
        have hmn_eq : mn = ba := by
          rw [hmn, min_eq_right hgb]
          exact min_eq_right (hr ▸ hba_mx)
        have hq0 : 0 ≤ (ga - ba) / d := div_nonneg (by linarith) hdpos.le
        have hq1 : (ga - ba) / d ≤ 1 := by
          rw [div_le_one hdpos, hd]; linarith
        have hhval : h = 60 * ((ga - ba) / d) := by
          rw [hh, hraw]; unfold normalizeNegHue
          rw [if_neg (not_lt.mpr (by positivity))]
        have hpval : hp = (ga - ba) / d := by rw [hhp, hhval]; ring
        have hbounds : 0 ≤ h ∧ h < 360 := by
          rw [hhval]; constructor
          · positivity
          · linarith
        by_cases hlt : hp < 1
        · -- sector 0
          have hxval : x = ga - ba := by
            rw [hx, hpval, secfac01 hq0 hq1]
            field_simp
          refine ⟨hbounds, ?_, ?_, ?_⟩ <;> rw [sectorRGB0 hlt] <;> dsimp only
          · rw [hd]; linarith
          · rw [hxval]; linarith
          · linarith
        · -- hue exactly 60: sector 1 with x = d
          have hpe : hp = 1 := by
            rw [hpval]; exact le_antisymm hq1 (by rw [hpval] at hlt; exact not_lt.mp hlt)
          have hqe : (ga - ba) / d = 1 := by rw [← hpval, hpe]
          have hgd : ga - ba = d := by
            field_simp at hqe
            linarith [hqe]
          have hxval : x = d := by
            rw [hx, hpe, secfac12 le_rfl (by norm_num)]
            ring
          refine ⟨hbounds, ?_, ?_, ?_⟩ <;>
            rw [sectorRGB1 (by rw [hpe]) (by rw [hpe]; norm_num)] <;> dsimp only
          · rw [hxval, hd]; linarith
          · rw [hd]; linarith
          · linarith
      · -- blue > green: hue in (300, 360)
        push_neg at hgb
        have hmn_eq : mn = ga := by
          rw [hmn, min_eq_left hgb.le]
          exact min_eq_right (hr ▸ hga_mx)
        have hq1 : (ba - ga) / d ≤ 1 := by
          rw [div_le_one hdpos, hd]; linarith
        have hqm1 : -1 ≤ (ga - ba) / d := by
          have hrw : (ga - ba) / d = -((ba - ga) / d) := by ring
          rw [hrw]; linarith
        have hqneg : (ga - ba) / d < 0 := div_neg_of_neg_of_pos (by linarith) hdpos
        have hneg : 60 * ((ga - ba) / d) < 0 :=
          mul_neg_of_pos_of_neg (by norm_num) hqneg
        have hhval : h = 60 * ((ga - ba) / d) + 360 := by
          rw [hh, hraw]; unfold normalizeNegHue; rw [if_pos hneg]
        have hpval : hp = (ga - ba) / d + 6 := by rw [hhp, hhval]; ring
        have hp5 : 5 ≤ hp := by rw [hpval]; linarith
        have hp6 : hp < 6 := by rw [hpval]; linarith
        have hbounds : 0 ≤ h ∧ h < 360 :=
          ⟨by rw [hhval]; linarith, by rw [hhval]; linarith⟩
        have hxval : x = ba - ga := by
          rw [hx, hpval, secfac56 (by linarith) (by linarith)]
          field_simp
        refine ⟨hbounds, ?_, ?_, ?_⟩ <;> rw [sectorRGB5 hp5] <;> dsimp only
        · rw [hd]; linarith
        · linarith
        · rw [hxval]; linarith
    · by_cases hg : mx = ga
      · -- dominant green channel
        have hraw : hueRawOf ra ga ba mx d = 60 * ((ba - ra) / d + 2) := by
          unfold hueRawOf; rw [if_neg hd0, if_neg hr, if_pos hg]
        have hralt : ra < mx := lt_of_le_of_ne hra_mx (fun he => hr he.symm)
        by_cases hba_ra : ba < ra
        · -- blue < red: hue in (60, 120)
          have hba_ga : ba ≤ ga := by rw [← hg]; exact hba_mx
          have hmn_eq : mn = ba := by
            rw [hmn, min_eq_right hba_ga]
            exact min_eq_right hba_ra.le
          have hq : (ba - ra) / d < 0 := div_neg_of_neg_of_pos (by linarith) hdpos
          have hqm1 : -1 < (ba - ra) / d := by
            rw [lt_div_iff₀ hdpos, hd]; linarith
          have hpos : 0 ≤ 60 * ((ba - ra) / d + 2) := by linarith
          have hhval : h = 60 * ((ba - ra) / d + 2) := by
            rw [hh, hraw]; unfold normalizeNegHue; rw [if_neg (not_lt.mpr hpos)]
          have hpval : hp = (ba - ra) / d + 2 := by rw [hhp, hhval]; ring
          have hp1 : 1 < hp := by rw [hpval]; linarith
          have hp2 : hp < 2 := by rw [hpval]; linarith
          have hbounds : 0 ≤ h ∧ h < 360 :=
            ⟨by rw [hhval]; linarith, by rw [hhval]; linarith⟩
          have hxval : x = ra - ba := by
            rw [hx, hpval, secfac12 (by linarith) (by linarith)]
            field_simp
          refine ⟨hbounds, ?_, ?_, ?_⟩ <;> rw [sectorRGB1 hp1.le hp2] <;> dsimp only
          · rw [hxval]; linarith
          · rw [hd]; linarith
          · linarith
        · -- red ≤ blue: hue in [120, 180]
          push_neg at hba_ra
          have hba_ga : ba ≤ ga := by rw [← hg]; exact hba_mx
          have hmn_eq : mn = ra := by
            rw [hmn, min_eq_right hba_ga]
            exact min_eq_left hba_ra
          have hq0 : 0 ≤ (ba - ra) / d := div_nonneg (by linarith) hdpos.le
          have hq1 : (ba - ra) / d ≤ 1 := by
            rw [div_le_one hdpos, hd]; linarith
          have hpos : 0 ≤ 60 * ((ba - ra) / d + 2) := by linarith
          have hhval : h = 60 * ((ba - ra) / d + 2) := by
            rw [hh, hraw]; unfold normalizeNegHue; rw [if_neg (not_lt.mpr hpos)]
          have hpval : hp = (ba - ra) / d + 2 := by rw [hhp, hhval]; ring
          have hp2 : 2 ≤ hp := by rw [hpval]; linarith
          have hp3 : hp ≤ 3 := by rw [hpval]; linarith
          have hbounds : 0 ≤ h ∧ h < 360 :=
            ⟨by rw [hhval]; linarith, by rw [hhval]; linarith⟩
          have hxval : x = ba - ra := by
            rw [hx, hpval, secfac23 (by linarith) (by linarith)]
            field_simp
            ring
          by_cases hlt3 : hp < 3
          · -- sector 2
            refine ⟨hbounds, ?_, ?_, ?_⟩ <;> rw [sectorRGB2 hp2 hlt3] <;> dsimp only
            · linarith
            · rw [hd]; linarith
            · rw [hxval]; linarith
          · -- hue exactly 180: sector 3 with x = d
            have hpe : hp = 3 := le_antisymm hp3 (not_lt.mp hlt3)
            have hxd : x = d := by
              rw [hx, hpe, secfac23 (by norm_num) (by norm_num)]
              ring
            have hbd : ba - ra = d := by
              have hqe : (ba - ra) / d = 1 := by
                have h3 := hpval
                rw [hpe] at h3
                linarith
              field_simp at hqe
              linarith [hqe]
            refine ⟨hbounds, ?_, ?_, ?_⟩ <;>
              rw [sectorRGB3 (by norm_num [hpe]) (by norm_num [hpe])] <;> dsimp only
            · linarith
            · rw [hxd, hd]; linarith
            · rw [hd]; linarith
      · -- dominant blue channel
        have hb : mx = ba := by
          have h1 : mx = ra ∨ mx = ga ∨ mx = ba := by
            rw [hmx]
            rcases max_choice ra (max ga ba) with h1 | h1
            · exact Or.inl h1
            · rcases max_choice ga ba with h2 | h2
              · exact Or.inr (Or.inl (by rw [h1, h2]))
              · exact Or.inr (Or.inr (by rw [h1, h2]))
          rcases h1 with h1 | h1 | h1
          · exact absurd h1 hr
          · exact absurd h1 hg
          · exact h1
        have hraw : hueRawOf ra ga ba mx d = 60 * ((ra - ga) / d + 4) := by
          unfold hueRawOf; rw [if_neg hd0, if_neg hr, if_neg hg]
        have hralt : ra < mx := lt_of_le_of_ne hra_mx (fun he => hr he.symm)
        have hgalt : ga < mx := lt_of_le_of_ne hga_mx (fun he => hg he.symm)
        by_cases hra_ga : ra < ga
        · -- red < green: hue in (180, 240)
          have hga_ba : ga ≤ ba := by rw [← hb]; exact hga_mx
          have hmn_eq : mn = ra := by
            rw [hmn, min_eq_left hga_ba]
            exact min_eq_left hra_ga.le
          have hq : (ra - ga) / d < 0 := div_neg_of_neg_of_pos (by linarith) hdpos
          have hqm1 : -1 < (ra - ga) / d := by
            rw [lt_div_iff₀ hdpos, hd]; linarith
          have hpos : 0 ≤ 60 * ((ra - ga) / d + 4) := by linarith
          have hhval : h = 60 * ((ra - ga) / d + 4) := by
            rw [hh, hraw]; unfold normalizeNegHue; rw [if_neg (not_lt.mpr hpos)]
          have hpval : hp = (ra - ga) / d + 4 := by rw [hhp, hhval]; ring
          have hp3 : 3 < hp := by rw [hpval]; linarith
          have hp4 : hp < 4 := by rw [hpval]; linarith
          have hbounds : 0 ≤ h ∧ h < 360 :=
            ⟨by rw [hhval]; linarith, by rw [hhval]; linarith⟩
          have hxval : x = ga - ra := by
            rw [hx, hpval, secfac34 (by linarith) (by linarith)]
            field_simp
          refine ⟨hbounds, ?_, ?_, ?_⟩ <;> rw [sectorRGB3 hp3.le hp4] <;> dsimp only
          · linarith
          · rw [hxval]; linarith
          · rw [hd]; linarith
        · -- green ≤ red: hue in [240, 300)
          push_neg at hra_ga
          have hga_ba : ga ≤ ba := by rw [← hb]; exact hga_mx
          have hmn_eq : mn = ga := by
            rw [hmn, min_eq_left hga_ba]
            exact min_eq_right hra_ga
          have hq0 : 0 ≤ (ra - ga) / d := div_nonneg (by linarith) hdpos.le
          have hq1 : (ra - ga) / d < 1 := by
            rw [div_lt_one hdpos, hd]; linarith
          have hpos : 0 ≤ 60 * ((ra - ga) / d + 4) := by linarith
          have hhval : h = 60 * ((ra - ga) / d + 4) := by
            rw [hh, hraw]; unfold normalizeNegHue; rw [if_neg (not_lt.mpr hpos)]
          have hpval : hp = (ra - ga) / d + 4 := by rw [hhp, hhval]; ring
          have hp4 : 4 ≤ hp := by rw [hpval]; linarith
          have hp5 : hp < 5 := by rw [hpval]; linarith
          have hbounds : 0 ≤ h ∧ h < 360 :=
            ⟨by rw [hhval]; linarith, by rw [hhval]; linarith⟩
          have hxval : x = ra - ga := by
            rw [hx, hpval, secfac45 (by linarith) (by linarith)]
            field_simp
            ring
          refine ⟨hbounds, ?_, ?_, ?_⟩ <;> rw [sectorRGB4 hp4 hp5] <;> dsimp only
          · rw [hxval]; linarith
          · linarith
          · rw [hd]; linarith

theorem chroma_eval {mx mn : ℚ} (h0 : 0 ≤ mn) (h1 : mn ≤ mx) :
    mx * 100 / 100 * ((if mx = 0 then (0:ℚ) else (mx - mn) / mx * 100) / 100) =
      mx - mn := by
  by_cases hz : mx = 0
  · rw [if_pos hz, hz]
    have hmn0 : mn = 0 := le_antisymm (hz ▸ h1) h0
    rw [hmn0]
    norm_num
  · rw [if_neg hz]
    field_simp
    ring

theorem chroma_eval_hsl {mx mn : ℚ} (h0 : 0 ≤ mn) (h1 : mn ≤ mx) (h2 : mx ≤ 1) :
    (1 - |2 * ((mx + mn) / 2 * 100 / 100) - 1|) *
      ((if mx - mn = 0 then (0:ℚ)
        else (mx - mn) / (1 - |2 * ((mx + mn) / 2) - 1|) * 100) / 100) =
      mx - mn := by
  have hl : (mx + mn) / 2 * 100 / 100 = (mx + mn) / 2 := by ring
  rw [hl]
  by_cases hz : mx - mn = 0
  · rw [if_pos hz, hz]
    ring
  · rw [if_neg hz]
    have hlt : mn < mx := by
      rcases lt_or_eq_of_le h1 with hlt | he
      · exact hlt
      · exact absurd (by rw [he, sub_self]) hz
    have h2l : 2 * ((mx + mn) / 2) = mx + mn := by ring
    rw [h2l]
    have habs : |mx + mn - 1| < 1 := by
      rw [abs_lt]
      constructor <;> linarith
    have hne : 1 - |mx + mn - 1| ≠ 0 := by
      intro h0'
      rw [sub_eq_zero] at h0'
      linarith [habs]
    field_simp [hne]
    ring

theorem hsv_roundtrip (r g b : ℕ) :
    hsvToRGB (rgbToHSV r g b).h (rgbToHSV r g b).s (rgbToHSV r g b).v =
      ⟨(r : ℤ), (g : ℤ), (b : ℤ)⟩ := by
  obtain ⟨h₀, s₀, v₀, hEq⟩ : ∃ h₀ s₀ v₀, rgbToHSV (r:ℚ) (g:ℚ) (b:ℚ) = ⟨h₀, s₀, v₀⟩ :=
    ⟨_, _, _, rfl⟩
  rw [hEq]
  dsimp only
  unfold rgbToHSV at hEq
  dsimp only at hEq
  rw [HSV.mk.injEq] at hEq
  obtain ⟨hh₀, hs₀, hv₀⟩ := hEq
  subst hh₀ hs₀ hv₀
  obtain ⟨⟨hbd0, hbd1⟩, e1, e2, e3⟩ :=
    sector_core ((r:ℚ)/255) ((g:ℚ)/255) ((b:ℚ)/255) _ _ _ _ _ _
      rfl rfl rfl rfl rfl rfl
  unfold hsvToRGB
  dsimp only
  rw [wrapHue_eq_self hbd0 hbd1]
  have hmn0 : 0 ≤ min ((r:ℚ)/255) (min ((g:ℚ)/255) ((b:ℚ)/255)) :=
    le_min (by positivity) (le_min (by positivity) (by positivity))
  have hmnmx : min ((r:ℚ)/255) (min ((g:ℚ)/255) ((b:ℚ)/255)) ≤
      max ((r:ℚ)/255) (max ((g:ℚ)/255) ((b:ℚ)/255)) :=
    le_trans (min_le_left _ _) (le_max_left _ _)
  rw [chroma_eval hmn0 hmnmx]
  rw [show max ((r:ℚ)/255) (max ((g:ℚ)/255) ((b:ℚ)/255)) * 100 / 100 -
      (max ((r:ℚ)/255) (max ((g:ℚ)/255) ((b:ℚ)/255)) -
        min ((r:ℚ)/255) (min ((g:ℚ)/255) ((b:ℚ)/255))) =
      min ((r:ℚ)/255) (min ((g:ℚ)/255) ((b:ℚ)/255)) from by ring]
  rw [e1, e2, e3]
  rw [show ((r:ℚ)/255) * 255 = (r:ℚ) from by field_simp,
    show ((g:ℚ)/255) * 255 = (g:ℚ) from by field_simp,
    show ((b:ℚ)/255) * 255 = (b:ℚ) from by field_simp]
  rw [jsRound_natCast, jsRound_natCast, jsRound_natCast]

theorem hsl_roundtrip (r g b : ℕ) (hr : r ≤ 255) (hg : g ≤ 255) (hb : b ≤ 255) :
    hslToRGB (rgbToHSL r g b).h (rgbToHSL r g b).s (rgbToHSL r g b).l =
      ⟨(r : ℤ), (g : ℤ), (b : ℤ)⟩ := by
  obtain ⟨h₀, s₀, l₀, hEq⟩ : ∃ h₀ s₀ l₀, rgbToHSL (r:ℚ) (g:ℚ) (b:ℚ) = ⟨h₀, s₀, l₀⟩ :=
    ⟨_, _, _, rfl⟩
  rw [hEq]
  dsimp only
  unfold rgbToHSL at hEq
  dsimp only at hEq
  rw [HSL.mk.injEq] at hEq
  obtain ⟨hh₀, hs₀, hl₀⟩ := hEq
  subst hh₀ hs₀ hl₀
  obtain ⟨⟨hbd0, hbd1⟩, e1, e2, e3⟩ :=
    sector_core ((r:ℚ)/255) ((g:ℚ)/255) ((b:ℚ)/255) _ _ _ _ _ _
      rfl rfl rfl rfl rfl rfl
  unfold hslToRGB
  dsimp only
  rw [wrapHue_eq_self hbd0 hbd1]
  have hmn0 : 0 ≤ min ((r:ℚ)/255) (min ((g:ℚ)/255) ((b:ℚ)/255)) :=
    le_min (by positivity) (le_min (by positivity) (by positivity))
  have hmnmx : min ((r:ℚ)/255) (min ((g:ℚ)/255) ((b:ℚ)/255)) ≤
      max ((r:ℚ)/255) (max ((g:ℚ)/255) ((b:ℚ)/255)) :=
    le_trans (min_le_left _ _) (le_max_left _ _)
  have hmx1 : max ((r:ℚ)/255) (max ((g:ℚ)/255) ((b:ℚ)/255)) ≤ 1 := by
    apply max_le
    · rw [div_le_one (by norm_num)]
      exact_mod_cast (by exact_mod_cast hr : (r:ℚ) ≤ 255)
    · apply max_le
      · rw [div_le_one (by norm_num)]
        exact_mod_cast (by exact_mod_cast hg : (g:ℚ) ≤ 255)
      · rw [div_le_one (by norm_num)]
        exact_mod_cast (by exact_mod_cast hb : (b:ℚ) ≤ 255)
  rw [chroma_eval_hsl hmn0 hmnmx hmx1]
  rw [show (max ((r:ℚ)/255) (max ((g:ℚ)/255) ((b:ℚ)/255)) +
        min ((r:ℚ)/255) (min ((g:ℚ)/255) ((b:ℚ)/255))) / 2 * 100 / 100 -
      (max ((r:ℚ)/255) (max ((g:ℚ)/255) ((b:ℚ)/255)) -
        min ((r:ℚ)/255) (min ((g:ℚ)/255) ((b:ℚ)/255))) / 2 =
      min ((r:ℚ)/255) (min ((g:ℚ)/255) ((b:ℚ)/255)) from by ring]
  rw [e1, e2, e3]
  rw [show ((r:ℚ)/255) * 255 = (r:ℚ) from by field_simp,
    show ((g:ℚ)/255) * 255 = (g:ℚ) from by field_simp,
    show ((b:ℚ)/255) * 255 = (b:ℚ) from by field_simp]
  rw [jsRound_natCast, jsRound_natCast, jsRound_natCast]

theorem hexDigitVal_inv {c : Char} {v : ℕ} (h : hexDigitVal c = some v) :
    v < 16 ∧ hexDigitChar v = asciiToLower c := by
  unfold hexDigitVal at h
  split at h <;> first
    | (injection h with h'
       subst h'
       exact ⟨by norm_num, by decide⟩)
    | exact absurd h (by simp)

theorem list_len6 {α : Type} {l : List α} (h : l.length = 6) :
    ∃ a b c d e f, l = [a, b, c, d, e, f] := by
  rcases l with _ | ⟨a, _ | ⟨b, _ | ⟨c, _ | ⟨d, _ | ⟨e, _ | ⟨f, _ | ⟨g, t⟩⟩⟩⟩⟩⟩⟩ <;>
    simp only [List.length] at h
  · exact absurd h (by norm_num)
  · exact absurd h (by norm_num)
  · exact absurd h (by norm_num)
  · exact absurd h (by norm_num)
  · exact absurd h (by norm_num)
  · exact absurd h (by norm_num)
  · exact ⟨a, b, c, d, e, f, rfl⟩
  · exact absurd h (by omega)

theorem natToHexChars_lt16 {n : ℕ} (h : n < 16) :
    natToHexChars n = [hexDigitChar n] := by
  rw [natToHexChars]
  exact dif_pos h

theorem natToHexChars_ge16 {n : ℕ} (h : ¬ n < 16) :
    natToHexChars n = natToHexChars (n / 16) ++ [hexDigitChar (n % 16)] := by
  rw [natToHexChars]
  exact dif_neg h

theorem padStart_natToHexChars {n : ℕ} (h : n < 256) :
    padStart2 (natToHexChars n) = [hexDigitChar (n / 16), hexDigitChar (n % 16)] := by
  by_cases h16 : n < 16
  · rw [natToHexChars_lt16 h16]
    rw [Nat.div_eq_of_lt h16, Nat.mod_eq_of_lt h16]
    rfl
  · rw [natToHexChars_ge16 h16, natToHexChars_lt16 (by omega)]
    rfl

theorem hexDigitVal_hexDigitChar {n : ℕ} (h : n < 16) :
    hexDigitVal (hexDigitChar n) = some n := by
  interval_cases n <;> rfl

theorem rgbToHexString_shape (r g b : ℤ)
    (hr : r.toNat < 256) (hg : g.toNat < 256) (hb : b.toNat < 256) :
    (rgbToHexString r g b).data =
      '#' :: [hexDigitChar (r.toNat / 16), hexDigitChar (r.toNat % 16),
        hexDigitChar (g.toNat / 16), hexDigitChar (g.toNat % 16),
        hexDigitChar (b.toNat / 16), hexDigitChar (b.toNat % 16)] := by
  unfold rgbToHexString
  rw [padStart_natToHexChars hr, padStart_natToHexChars hg, padStart_natToHexChars hb]
  rfl

/-- C1: for every valid 6-digit hex string (optionally `'#'`-prefixed,
case-insensitive), converting to HSV and back to hex — and likewise through
HSL — returns exactly the lowercase `'#'`-prefixed form of the input: the
round-trip is an exact string match, not merely within ±1 per channel. -/
theorem hex_roundtrip_exact (s : String) (hval : validHex s) :
    hsvToHex (hexToHSV (some s)) = canonicalHex s ∧
    hslToHex (hexToHSL (some s)) = canonicalHex s := by
  obtain ⟨hlen, hhex⟩ := hval
  obtain ⟨c₁, c₂, c₃, c₄, c₅, c₆, hshape⟩ := list_len6 hlen
  have hmem : ∀ c ∈ ([c₁, c₂, c₃, c₄, c₅, c₆] : List Char), (hexDigitVal c).isSome := by
    rw [← hshape]; exact hhex
  obtain ⟨v₁, hv₁⟩ := Option.isSome_iff_exists.mp (hmem c₁ (by simp))
  obtain ⟨v₂, hv₂⟩ := Option.isSome_iff_exists.mp (hmem c₂ (by simp))
  obtain ⟨v₃, hv₃⟩ := Option.isSome_iff_exists.mp (hmem c₃ (by simp))
  obtain ⟨v₄, hv₄⟩ := Option.isSome_iff_exists.mp (hmem c₄ (by simp))
  obtain ⟨v₅, hv₅⟩ := Option.isSome_iff_exists.mp (hmem c₅ (by simp))
  obtain ⟨v₆, hv₆⟩ := Option.isSome_iff_exists.mp (hmem c₆ (by simp))
  obtain ⟨hb₁, hc₁⟩ := hexDigitVal_inv hv₁
  obtain ⟨hb₂, hc₂⟩ := hexDigitVal_inv hv₂
  obtain ⟨hb₃, hc₃⟩ := hexDigitVal_inv hv₃
  obtain ⟨hb₄, hc₄⟩ := hexDigitVal_inv hv₄
  obtain ⟨hb₅, hc₅⟩ := hexDigitVal_inv hv₅
  obtain ⟨hb₆, hc₆⟩ := hexDigitVal_inv hv₆
  have hp₁ : parseHexPair c₁ c₂ = some (16 * v₁ + v₂) := by
    unfold parseHexPair; rw [hv₁, hv₂]
  have hp₂ : parseHexPair c₃ c₄ = some (16 * v₃ + v₄) := by
    unfold parseHexPair; rw [hv₃, hv₄]
  have hp₃ : parseHexPair c₅ c₆ = some (16 * v₅ + v₆) := by
    unfold parseHexPair; rw [hv₅, hv₆]
  have hrgb : hexToRGB (some s) =
      ⟨((16 * v₁ + v₂ : ℕ) : ℤ), ((16 * v₃ + v₄ : ℕ) : ℤ), ((16 * v₅ + v₆ : ℕ) : ℤ)⟩ := by
    unfold hexToRGB
    dsimp only
    rw [hshape]
    unfold hexToRGBChars
    dsimp only
    rw [hp₁, hp₂, hp₃]
  have hcanon : canonicalHex s =
      ⟨'#' :: [asciiToLower c₁, asciiToLower c₂, asciiToLower c₃, asciiToLower c₄,
        asciiToLower c₅, asciiToLower c₆]⟩ := by
    unfold canonicalHex
    rw [hshape]
    rfl
  have hdiv₁ : (16 * v₁ + v₂) / 16 = v₁ := by omega
  have hmod₁ : (16 * v₁ + v₂) % 16 = v₂ := by omega
  have hdiv₂ : (16 * v₃ + v₄) / 16 = v₃ := by omega
  have hmod₂ : (16 * v₃ + v₄) % 16 = v₄ := by omega
  have hdiv₃ : (16 * v₅ + v₆) / 16 = v₅ := by omega
  have hmod₃ : (16 * v₅ + v₆) % 16 = v₆ := by omega
  have hlt₁ : ((16 * v₁ + v₂ : ℕ) : ℤ).toNat < 256 := by
    rw [Int.toNat_natCast]; omega
  have hlt₂ : ((16 * v₃ + v₄ : ℕ) : ℤ).toNat < 256 := by
    rw [Int.toNat_natCast]; omega
  have hlt₃ : ((16 * v₅ + v₆ : ℕ) : ℤ).toNat < 256 := by
    rw [Int.toNat_natCast]; omega
  have hfmt : rgbToHexString ((16 * v₁ + v₂ : ℕ) : ℤ) ((16 * v₃ + v₄ : ℕ) : ℤ)
      ((16 * v₅ + v₆ : ℕ) : ℤ) = canonicalHex s := by
    apply String.ext
    rw [rgbToHexString_shape _ _ _ hlt₁ hlt₂ hlt₃, hcanon]
    rw [Int.toNat_natCast, Int.toNat_natCast, Int.toNat_natCast]
    rw [hdiv₁, hmod₁, hdiv₂, hmod₂, hdiv₃, hmod₃]
    rw [hc₁, hc₂, hc₃, hc₄, hc₅, hc₆]
  constructor
  · have hHSV : hexToHSV (some s) =
        rgbToHSV ((16 * v₁ + v₂ : ℕ) : ℚ) ((16 * v₃ + v₄ : ℕ) : ℚ)
          ((16 * v₅ + v₆ : ℕ) : ℚ) := by
      unfold hexToHSV
      rw [hrgb]
      norm_cast
    unfold hsvToHex
    rw [hHSV]
    dsimp only
    rw [hsv_roundtrip]
    exact hfmt
  · have hHSL : hexToHSL (some s) =
        rgbToHSL ((16 * v₁ + v₂ : ℕ) : ℚ) ((16 * v₃ + v₄ : ℕ) : ℚ)
          ((16 * v₅ + v₆ : ℕ) : ℚ) := by
      unfold hexToHSL
      rw [hrgb]
      norm_cast
    unfold hslToHex
    rw [hHSL]
    dsimp only
    rw [hsl_roundtrip _ _ _ (by omega) (by omega) (by omega)]
    exact hfmt

theorem hex_roundtrip_exact_witness :
    hsvToHex (hexToHSV (some "#2ECC71")) = canonicalHex "#2ECC71" ∧
    hslToHex (hexToHSL (some "#2ECC71")) = canonicalHex "#2ECC71" :=
  hex_roundtrip_exact "#2ECC71" (by decide)

theorem clampChannel_range (n : ℤ) :
    0 ≤ PickerInteractions.clampChannel n ∧ PickerInteractions.clampChannel n ≤ 255 := by
  unfold PickerInteractions.clampChannel
  exact ⟨le_max_left 0 _, max_le (by norm_num) (min_le_left _ _)⟩

/-- C10: for any text contents of the three RGB entry fields, the
RGB-input handler's parse-default-clamp-format pipeline yields channels in
`[0, 255]` and a well-formed hex string: exactly `'#'` followed by six
hexadecimal digit characters.  The model is total, so arbitrary typed text
never throws. -/
theorem handleRGBInput_safe (sR sG sB : String) :
    (0 ≤ PickerInteractions.clampChannel (PickerInteractions.parseChannel sR) ∧
      PickerInteractions.clampChannel (PickerInteractions.parseChannel sR) ≤ 255) ∧
    (0 ≤ PickerInteractions.clampChannel (PickerInteractions.parseChannel sG) ∧
      PickerInteractions.clampChannel (PickerInteractions.parseChannel sG) ≤ 255) ∧
    (0 ≤ PickerInteractions.clampChannel (PickerInteractions.parseChannel sB) ∧
      PickerInteractions.clampChannel (PickerInteractions.parseChannel sB) ≤ 255) ∧
    ∃ rest : List Char,
      (PickerInteractions.handleRGBInputHex sR sG sB).data = '#' :: rest ∧
      rest.length = 6 ∧ ∀ c ∈ rest, (hexDigitVal c).isSome := by
  obtain ⟨hr0, hr1⟩ := clampChannel_range (PickerInteractions.parseChannel sR)
  obtain ⟨hg0, hg1⟩ := clampChannel_range (PickerInteractions.parseChannel sG)
  obtain ⟨hb0, hb1⟩ := clampChannel_range (PickerInteractions.parseChannel sB)
  refine ⟨⟨hr0, hr1⟩, ⟨hg0, hg1⟩, ⟨hb0, hb1⟩, ?_⟩
  have hrn : (PickerInteractions.clampChannel (PickerInteractions.parseChannel sR)).toNat < 256 := by
    omega
  have hgn : (PickerInteractions.clampChannel (PickerInteractions.parseChannel sG)).toNat < 256 := by
    omega
  have hbn : (PickerInteractions.clampChannel (PickerInteractions.parseChannel sB)).toNat < 256 := by
    omega
  refine ⟨_, rgbToHexString_shape _ _ _ hrn hgn hbn, rfl, ?_⟩
  intro c hc
  simp only [List.mem_cons, List.not_mem_nil, or_false] at hc
  rcases hc with rfl | rfl | rfl | rfl | rfl | rfl <;>
    rw [hexDigitVal_hexDigitChar (by omega)] <;> rfl

/-- C3: `calculatePosition` agrees with the spec's four-step reference
definition on every input, and on the concrete geometry (anchor
top 100/bottom 130/left 200/right 300, panel 300×400, viewport 1024×768,
no scroll) it returns top 135, left 200. -/
theorem calculatePosition_matches_reference :
    (∀ (rect : PickerPositioning.Rect) (pH pW sx sy iw ih : ℚ),
      PickerPositioning.calculatePosition rect pH pW sx sy iw ih =
        PickerPositioning.specReferencePosition rect pH pW sx sy iw ih) ∧
    PickerPositioning.calculatePosition ⟨100, 130, 200, 300⟩ 400 300 0 0 1024 768 =
      ⟨135, 200⟩ := by
  refine ⟨fun rect pH pW sx sy iw ih => rfl, ?_⟩
  unfold PickerPositioning.calculatePosition
  norm_num

/-- C8: the position returned by `calculatePosition` always has
`top ≥ 0` and `left ≥ 0`, for every anchor, panel size, viewport size and
scroll offset (negative scroll included), because the floor-at-zero clamp is
applied after the flip and right-clamp adjustments. -/
theorem calculatePosition_nonneg
    (rect : PickerPositioning.Rect) (pH pW sx sy iw ih : ℚ) :
    0 ≤ (PickerPositioning.calculatePosition rect pH pW sx sy iw ih).top ∧
    0 ≤ (PickerPositioning.calculatePosition rect pH pW sx sy iw ih).left := by
  unfold PickerPositioning.calculatePosition
  exact ⟨le_max_left 0 _, le_max_left 0 _⟩

end Theorems
